import Mathlib

/-!
Shallow embedding of src/Scene2/src/scripts/ReflectionDetector.ts and proofs
about its per-frame pipeline (Sobel edge map, bright-point extraction,
ranking/truncation, projection, particle-buffer update, driver state machine).

Modelling conventions:
* A frame's RGBA pixel buffer (JS Uint8ClampedArray) is a `List ℕ`
  (row-major, 4 components per pixel).
* JS numbers are modelled as exact rationals (ℚ) and reals (ℝ); the only
  irrational operation in the source is Math.sqrt, modelled by Real.sqrt.
* To keep the pipeline kernel-executable we also carry an integer-scaled
  mirror of the arithmetic: lumas are scaled by 1000
  (0.299 R + 0.587 G + 0.114 B becomes 299 R + 587 G + 114 B), and the
  edge map stores the squared gradient magnitude scaled by 1000², so the
  comparison sqrt(sumX² + sumY²) > 0.2 of the source becomes
  (1000 sumX)² + (1000 sumY)² > 0.2² · 1000² · 1000 ... precisely:
  scaledSq > 40000 · 1000² / 1000² = 40000.  Every scaled definition is
  linked to the source-faithful ℚ/ℝ definition by a proved bridge lemma.
* JS array semantics at the one out-of-bounds-prone access of the source
  (line 100, edges[x][y]): reading a missing row (edges[x] with
  x ≥ edges.length) yields undefined and the subsequent [y] throws a
  TypeError, which we model as the failure (none) of the extraction;
  reading a missing column inside an existing row yields undefined, and
  the JS comparison (undefined > 0.2) is false, which we model as a false
  test without failure.
-/

namespace ReflectionDetector

/-- Configuration constant brightnessThreshold of the source (line 18). -/
def brightnessThreshold : ℚ := 200

/-- Configuration constant edgeThreshold of the source (line 19), 0.2. -/
def edgeThreshold : ℚ := 1 / 5

/-- Configuration constant projectionDistance of the source (line 20), 0.1. -/
def projectionDistance : ℚ := 1 / 10

/-- Configuration constant maxBrightPoints of the source (line 21). -/
def maxBrightPoints : ℕ := 5

/-- BrightPoint record of the source (lines 3-8): pixel coordinates, the
luma brightness and the normalized color (r/255, g/255, b/255). -/
structure BrightPoint where
  x : ℕ
  y : ℕ
  brightness : ℚ
  color : ℚ × ℚ × ℚ
deriving DecidableEq, Repr

/-- Integer-scaled mirror of BrightPoint used by the executable pipeline:
brightness is the luma scaled by 1000 and the color is kept as the raw
8-bit channels. -/
structure BrightPointS where
  x : ℕ
  y : ℕ
  brightness1000 : ℤ
  r : ℕ
  g : ℕ
  b : ℕ
deriving DecidableEq, Repr

/-- Conversion from the integer-scaled point to the source-faithful point. -/
def BrightPointS.toPoint (p : BrightPointS) : BrightPoint :=
  ⟨p.x, p.y, (p.brightness1000 : ℚ) / 1000,
    ((p.r : ℚ) / 255, (p.g : ℚ) / 255, (p.b : ℚ) / 255)⟩

/-- Luma of the pixel starting at byte index idx, scaled by 1000: the
source's 0.299 * pixels[i] + 0.587 * pixels[i+1] + 0.114 * pixels[i+2]
(lines 96 and 152) multiplied by 1000. -/
def luma1000 (pixels : List ℕ) (idx : ℕ) : ℤ :=
  299 * (pixels.getD idx 0 : ℤ) + 587 * (pixels.getD (idx + 1) 0 : ℤ)
    + 114 * (pixels.getD (idx + 2) 0 : ℤ)

/-- Source-faithful luma of the pixel starting at byte index idx:
0.299 * pixels[i] + 0.587 * pixels[i+1] + 0.114 * pixels[i+2]. -/
def lumaQ (pixels : List ℕ) (idx : ℕ) : ℚ :=
  299 / 1000 * (pixels.getD idx 0 : ℚ) + 587 / 1000 * (pixels.getD (idx + 1) 0 : ℚ)
    + 114 / 1000 * (pixels.getD (idx + 2) 0 : ℚ)

/-- Horizontal Sobel kernel gx of the source (lines 126-130). -/
def gxK : List (List ℤ) := [[-1, 0, 1], [-2, 0, 2], [-1, 0, 1]]

/-- Vertical Sobel kernel gy of the source (lines 131-135). -/
def gyK : List (List ℤ) := [[-1, -2, -1], [0, 0, 0], [1, 2, 1]]

/-- Kernel lookup k[i][j]. -/
def kAt (k : List (List ℤ)) (i j : ℕ) : ℤ := (k.getD i []).getD j 0

/-- Loop offsets: the source iterates i, j over -1..1 and indexes the
kernels at i+1, j+1 (lines 149-155); we iterate the shifted values 0..2,
so the kernel index is i and the neighbour coordinate y + i of the source
becomes y + i - 1 (equal for every interior pixel, where y ≥ 1). -/
def offsets : List ℕ := [0, 1, 2]

/-- Accumulation of the two Sobel convolution sums at pixel (x, y), scaled
by 1000 (lines 146-156 of the source with luma scaled by 1000). -/
def sobelAccum (pixels : List ℕ) (width x y : ℕ) : ℤ × ℤ :=
  offsets.foldl
    (fun s i =>
      offsets.foldl
        (fun t j =>
          (t.1 + luma1000 pixels (((y + i - 1) * width + (x + j - 1)) * 4) * kAt gxK i j,
           t.2 + luma1000 pixels (((y + i - 1) * width + (x + j - 1)) * 4) * kAt gyK i j))
        s)
    (0, 0)

/-- Source-faithful accumulation of the two Sobel convolution sums at
pixel (x, y) (lines 146-156 of the source). -/
def sobelAccumQ (pixels : List ℕ) (width x y : ℕ) : ℚ × ℚ :=
  offsets.foldl
    (fun s i =>
      offsets.foldl
        (fun t j =>
          (t.1 + lumaQ pixels (((y + i - 1) * width + (x + j - 1)) * 4) * (kAt gxK i j : ℚ),
           t.2 + lumaQ pixels (((y + i - 1) * width + (x + j - 1)) * 4) * (kAt gyK i j : ℚ)))
        s)
    (0, 0)

/-- Squared-and-scaled edge map of applySobelFilter (lines 124-163):
row y holds the values for image row y; interior entries hold
(1000 sumX)² + (1000 sumY)², border entries hold 0.  The source loop
bound y < height - 1 is rendered as y + 1 < height (equal on ℕ for every
height, including height = 0). -/
def applySobelFilterSq (pixels : List ℕ) (width height : ℕ) : List (List ℤ) :=
  (List.range height).map fun y =>
    (List.range width).map fun x =>
      if 1 ≤ y ∧ y + 1 < height ∧ 1 ≤ x ∧ x + 1 < width then
        (sobelAccum pixels width x y).1 * (sobelAccum pixels width x y).1
          + (sobelAccum pixels width x y).2 * (sobelAccum pixels width x y).2
      else 0

/-- Source-faithful applySobelFilter (lines 124-163): gradients[y][x] is
Math.sqrt(sumX * sumX + sumY * sumY) at interior pixels and 0 at the
border. -/
noncomputable def applySobelFilter (pixels : List ℕ) (width height : ℕ) : List (List ℝ) :=
  (List.range height).map fun y =>
    (List.range width).map fun x =>
      if 1 ≤ y ∧ y + 1 < height ∧ 1 ≤ x ∧ x + 1 < width then
        Real.sqrt (((sobelAccumQ pixels width x y).1 : ℝ) * ((sobelAccumQ pixels width x y).1 : ℝ)
          + ((sobelAccumQ pixels width x y).2 : ℝ) * ((sobelAccumQ pixels width x y).2 : ℝ))
      else 0

/-- Unscaling of an integer-scaled squared gradient magnitude back to the
real gradient magnitude of the source: the scaled value is
(1000 sumX)² + (1000 sumY)², so dividing by 1000² and taking the square
root recovers sqrt(sumX² + sumY²). -/
noncomputable def sqrtScaled (v : ℤ) : ℝ := Real.sqrt ((v : ℝ) / 1000000)

/-- Edge-map lookup edges[x][y] of source line 100, integer-scaled map.
Reading a missing row is the JS TypeError (none); a missing column inside
an existing row is undefined, and undefined > 0.2 is false.  The
comparison sqrt(s) > 0.2 on the unscaled values is rendered as
scaledSq > 40000 (bridged by edgeTestR_map below). -/
def edgeTestScaled (edges : List (List ℤ)) (x y : ℕ) : Option Bool :=
  match edges[x]? with
  | none => none
  | some row =>
    some (match row[y]? with
      | none => false
      | some v => decide (40000 < v))

open Classical in
/-- Edge-map lookup edges[x][y] of source line 100 on the source-faithful
real-valued edge map, with the source's comparison edges[x][y] > 0.2. -/
noncomputable def edgeTestR (edges : List (List ℝ)) (x y : ℕ) : Option Bool :=
  match edges[x]? with
  | none => none
  | some row =>
    some (match row[y]? with
      | none => false
      | some v => decide ((edgeThreshold : ℝ) < v))

/-- Loop body of findBrightPoints (lines 95-103), integer-scaled: the
source iterates i over byte indices 0, 4, 8, ... < pixels.length; here p
is the pixel number i / 4 and the fuel k counts the remaining iterations.
The luma test comes first (short-circuit &&), so the edge map is only
read at bright pixels. -/
def fbpGoScaled (pixels : List ℕ) (width : ℕ) (edges : List (List ℤ)) :
    ℕ → ℕ → Option (List BrightPointS)
  | 0, _ => some []
  | k + 1, p =>
    if 200000 < luma1000 pixels (4 * p) then
      match edgeTestScaled edges (p % width) (p / width) with
      | none => none
      | some pass =>
        match fbpGoScaled pixels width edges k (p + 1) with
        | none => none
        | some rest =>
          some (if pass then
            ⟨p % width, p / width, luma1000 pixels (4 * p),
              pixels.getD (4 * p) 0, pixels.getD (4 * p + 1) 0,
              pixels.getD (4 * p + 2) 0⟩ :: rest
          else rest)
    else
      fbpGoScaled pixels width edges k (p + 1)

/-- Integer-scaled findBrightPoints (lines 91-106). -/
def findBrightPointsScaled (pixels : List ℕ) (width height : ℕ) :
    Option (List BrightPointS) :=
  fbpGoScaled pixels width (applySobelFilterSq pixels width height)
    ((pixels.length + 3) / 4) 0

/-- Loop body of findBrightPoints (lines 95-103), source-faithful: the
brightness is the exact luma, the color is (r/255, g/255, b/255) and the
edge test compares the real-valued Sobel magnitude with edgeThreshold. -/
noncomputable def fbpGoR (pixels : List ℕ) (width : ℕ) (edges : List (List ℝ)) :
    ℕ → ℕ → Option (List BrightPoint)
  | 0, _ => some []
  | k + 1, p =>
    if brightnessThreshold < lumaQ pixels (4 * p) then
      match edgeTestR edges (p % width) (p / width) with
      | none => none
      | some pass =>
        match fbpGoR pixels width edges k (p + 1) with
        | none => none
        | some rest =>
          some (if pass then
            ⟨p % width, p / width, lumaQ pixels (4 * p),
              ((pixels.getD (4 * p) 0 : ℚ) / 255, (pixels.getD (4 * p + 1) 0 : ℚ) / 255,
                (pixels.getD (4 * p + 2) 0 : ℚ) / 255)⟩ :: rest
          else rest)
    else
      fbpGoR pixels width edges k (p + 1)

/-- Source-faithful findBrightPoints (lines 91-106): builds the edge map
and scans every pixel in row-major order; returns none when the scan
reaches the JS TypeError of line 100 (edges[x] with x ≥ height). -/
noncomputable def findBrightPoints (pixels : List ℕ) (width height : ℕ) :
    Option (List BrightPoint) :=
  fbpGoR pixels width (applySobelFilter pixels width height)
    ((pixels.length + 3) / 4) 0

/-- Lookup of the edge map value for pixel (x, y): the source stores it at
gradients[y][x] (row y, column x). -/
noncomputable def edgeAtR (m : List (List ℝ)) (x y : ℕ) : ℝ := (m.getD y []).getD x 0

/-- Lookup of the integer-scaled squared edge map value for pixel (x, y). -/
def edgeAtS (m : List (List ℤ)) (x y : ℕ) : ℤ := (m.getD y []).getD x 0

/-- Descending-order comparison used by the sort of source line 109: the JS
comparator (a, b) => b.brightness - a.brightness orders the array by
brightness descending. -/
def descBr (a b : BrightPoint) : Prop := b.brightness ≤ a.brightness

/-- Insertion step of the insertion sort modelling Array.prototype.sort with
the descending-brightness comparator of source line 109 (the JS sort is
specified only up to the comparator ordering; any sorted permutation models
it). -/
def insertDesc (p : BrightPoint) : List BrightPoint → List BrightPoint
  | [] => [p]
  | q :: rest =>
    if q.brightness ≤ p.brightness then p :: q :: rest else q :: insertDesc p rest

/-- Sort of source line 109: brightPoints.sort((a, b) => b.brightness - a.brightness). -/
def sortDesc : List BrightPoint → List BrightPoint
  | [] => []
  | p :: rest => insertDesc p (sortDesc rest)

/-- Ranking and truncation of source lines 109-112: sort descending by
brightness, then truncate to maxBrightPoints entries when longer. -/
def rankPoints (pts : List BrightPoint) : List BrightPoint :=
  if maxBrightPoints < (sortDesc pts).length then (sortDesc pts).take maxBrightPoints
  else sortDesc pts

/-- Position triple written into the particle buffer (a THREE.Vector3 of the
source, over exact rationals). -/
structure Vec3 where
  x : ℚ
  y : ℚ
  z : ℚ
deriving DecidableEq, Repr

/-- convertToWorldPosition of source lines 165-169:
normalizedX = x / width * 2 - 1, normalizedY = -y / height * 2 + 1, z = 0.
Division is exact rational division; the source is only ever called with
width, height > 0 (ℚ division by zero would not model JS there). -/
def convertToWorldPosition (x y width height : ℕ) : Vec3 :=
  ⟨(x : ℚ) / (width : ℚ) * 2 - 1, -(y : ℚ) / (height : ℚ) * 2 + 1, 0⟩

/-- Particle buffer of initParticleSystem (lines 57-66): maxBrightPoints
position triples, initialized to zero (new Float32Array). -/
def initPositions : List Vec3 := List.replicate maxBrightPoints ⟨0, 0, 0⟩

/-- Position written for one ranked point by line 118 of the source:
(worldPos.x, worldPos.y, worldPos.z - projectionDistance). -/
def projPoint (p : BrightPoint) (width height : ℕ) : Vec3 :=
  ⟨(convertToWorldPosition p.x p.y width height).x,
   (convertToWorldPosition p.x p.y width height).y,
   (convertToWorldPosition p.x p.y width height).z - projectionDistance⟩

/-- Write loop of updateParticleSystem (lines 115-120): for each ranked
point, positions.setXYZ(i, worldPos.x, worldPos.y, worldPos.z -
projectionDistance).  List.set ignores out-of-range indices exactly as a
Float32Array ignores out-of-range writes. -/
def writeLoop (width height : ℕ) : List BrightPoint → ℕ → List Vec3 → List Vec3
  | [], _, buf => buf
  | p :: rest, i, buf =>
    writeLoop width height rest (i + 1) (buf.set i (projPoint p width height))

/-- updateParticleSystem of source lines 108-122 acting on the particle
buffer: rank/truncate the candidate points, then overwrite the first
entries of the buffer with their projected positions. -/
def updateParticleSystem (pts : List BrightPoint) (width height : ℕ)
    (buf : List Vec3) : List Vec3 :=
  writeLoop width height (rankPoints pts) 0 buf

/-- ProjectedPoint handed to the rendering sink: a 3D position plus the
normalized color of its BrightPoint. -/
def projectedOf (pts : List BrightPoint) (width height : ℕ) :
    List (Vec3 × (ℚ × ℚ × ℚ)) :=
  (rankPoints pts).map fun p => (projPoint p width height, p.color)

/-- Default bright point used for getD lookups in theorem statements. -/
def ptDefault : BrightPoint := ⟨0, 0, 0, (0, 0, 0)⟩

/-- One full pipeline pass (lines 83-85 of detectReflections): extract the
bright points of the frame, and on success produce the projected point list
for the rendering sink together with the updated particle buffer; none is
the extraction failure (the exception of line 100). -/
noncomputable def runPassFull (pixels : List ℕ) (width height : ℕ)
    (buf : List Vec3) : Option (List (Vec3 × (ℚ × ℚ × ℚ)) × List Vec3) :=
  match findBrightPoints pixels width height with
  | none => none
  | some pts => some (projectedOf pts width height, updateParticleSystem pts width height buf)

/-- State of the pipeline driver, spec section 4.5: AwaitingCapture before
the capture source has delivered a ready frame, Running afterwards. -/
inductive DriverPhase where
  | awaitingCapture
  | running
deriving DecidableEq, Repr

/-- Observable state of the driver: its phase, the number of diagnostic
reports emitted (console.error of line 53), the number of acquisition
attempts (getUserMedia calls, line 46), whether a detectReflections
callback is pending (requestAnimationFrame, lines 50 and 88), and the
particle buffer. -/
structure DriverState where
  phase : DriverPhase
  diagnostics : ℕ
  acquireAttempts : ℕ
  scheduled : Bool
  buffer : List Vec3

/-- Driver state after the constructor ran initParticleSystem but before
initWebcam resolves. -/
def initState : DriverState :=
  ⟨DriverPhase.awaitingCapture, 0, 0, false, initPositions⟩

/-- initWebcam of source lines 43-55: one getUserMedia attempt; on success
the then-branch schedules detectReflections (line 50); on failure the
catch-branch logs a single diagnostic (line 53) and schedules nothing —
there is no retry anywhere in the source. -/
def initWebcam (captureOk : Bool) (s : DriverState) : DriverState :=
  if captureOk then
    { s with acquireAttempts := s.acquireAttempts + 1, scheduled := true }
  else
    { s with acquireAttempts := s.acquireAttempts + 1,
             diagnostics := s.diagnostics + 1 }

/-- Input delivered to one scheduled invocation: whether the video element
reports HAVE_ENOUGH_DATA (line 69) and the frame snapshot. -/
structure FrameInput where
  ready : Bool
  pixels : List ℕ
  width : ℕ
  height : ℕ

/-- One scheduler tick (one animation frame): if no detectReflections
callback is pending nothing runs; otherwise detectReflections (lines
68-89) executes: if the frame is not ready it just reschedules itself
(line 88); if it is ready it runs one pass and reschedules, except that
the TypeError of line 100 aborts the callback before line 88 is reached,
so nothing is rescheduled. -/
noncomputable def step (inp : FrameInput) (s : DriverState) : DriverState :=
  if s.scheduled then
    if inp.ready then
      match findBrightPoints inp.pixels inp.width inp.height with
      | none => { s with phase := DriverPhase.running, scheduled := false }
      | some pts =>
        { s with phase := DriverPhase.running,
                 buffer := updateParticleSystem pts inp.width inp.height s.buffer,
                 scheduled := true }
    else
      { s with scheduled := true }
  else s

/-- Iterated scheduler ticks over an arbitrary sequence of inputs. -/
noncomputable def runTrace : List FrameInput → DriverState → DriverState
  | [], s => s
  | inp :: rest, s => runTrace rest (step inp s)

/-- Claim-side horizontal convolution sum at pixel (x, y): the 3x3
neighbourhood lumas weighted by gx = [[-1,0,1],[-2,0,2],[-1,0,1]], written
out term by term as the spec states it (used only to compare against the
loop-based definition of the source). -/
def convXSpec (pixels : List ℕ) (width x y : ℕ) : ℚ :=
  (-1) * lumaQ pixels (((y - 1) * width + (x - 1)) * 4)
    + 0 * lumaQ pixels (((y - 1) * width + x) * 4)
    + 1 * lumaQ pixels (((y - 1) * width + (x + 1)) * 4)
    + (-2) * lumaQ pixels ((y * width + (x - 1)) * 4)
    + 0 * lumaQ pixels ((y * width + x) * 4)
    + 2 * lumaQ pixels ((y * width + (x + 1)) * 4)
    + (-1) * lumaQ pixels (((y + 1) * width + (x - 1)) * 4)
    + 0 * lumaQ pixels (((y + 1) * width + x) * 4)
    + 1 * lumaQ pixels (((y + 1) * width + (x + 1)) * 4)

/-- Claim-side vertical convolution sum at pixel (x, y): the 3x3
neighbourhood lumas weighted by gy = [[-1,-2,-1],[0,0,0],[1,2,1]]. -/
def convYSpec (pixels : List ℕ) (width x y : ℕ) : ℚ :=
  (-1) * lumaQ pixels (((y - 1) * width + (x - 1)) * 4)
    + (-2) * lumaQ pixels (((y - 1) * width + x) * 4)
    + (-1) * lumaQ pixels (((y - 1) * width + (x + 1)) * 4)
    + 0 * lumaQ pixels ((y * width + (x - 1)) * 4)
    + 0 * lumaQ pixels ((y * width + x) * 4)
    + 0 * lumaQ pixels ((y * width + (x + 1)) * 4)
    + 1 * lumaQ pixels (((y + 1) * width + (x - 1)) * 4)
    + 2 * lumaQ pixels (((y + 1) * width + x) * 4)
    + 1 * lumaQ pixels (((y + 1) * width + (x + 1)) * 4)

/-- RGBA bytes of one pure white pixel. -/
def whitePx : List ℕ := [255, 255, 255, 255]

/-- RGBA bytes of one mid-gray pixel. -/
def grayPx : List ℕ := [128, 128, 128, 255]

/-- RGBA bytes of one black pixel. -/
def blackPx : List ℕ := [0, 0, 0, 255]

/-- The 4x4 frame of the end-to-end scenario of spec section 8: mid-gray
everywhere except pure white at pixel (2, 2) (pixel number 10). -/
def grayWhiteFrame : List ℕ :=
  ((List.range 16).map fun p => if p = 10 then whitePx else grayPx).flatten

/-- A 5x5 frame with columns 0-2 black and columns 3-4 white: a vertical
edge between columns 2 and 3.  Pixel (3, 1) is bright and the edge map
value at (3, 1) is 1020 > 0.2, yet the code does not emit it because line
100 reads the edge map at the transposed position (1, 3), which is 0. -/
def fiveFrame : List ℕ :=
  ((List.range 25).map fun p => if p % 5 ≥ 3 then whitePx else blackPx).flatten

/-- A valid 2x1 frame (buffer length 8 = 2*1*4) whose second pixel is
bright: scanning it reaches edges[1] with only one edge-map row, the JS
TypeError of line 100. -/
def crashFrame : List ℕ := [128, 128, 128, 255, 255, 255, 255, 255]

/-- A 3x3 all-black frame used by witnesses. -/
def blackFrame : List ℕ := (List.replicate 9 blackPx).flatten

/-- A small concrete candidate list used by witnesses. -/
def demoPts : List BrightPoint :=
  [⟨1, 0, 210, (1, 1, 1)⟩, ⟨0, 1, 250, (1, 0, 0)⟩]

/-- A concrete particle buffer used by witnesses. -/
def demoBuf : List Vec3 :=
  [⟨5, 5, 5⟩, ⟨6, 6, 6⟩, ⟨7, 7, 7⟩, ⟨8, 8, 8⟩, ⟨9, 9, 9⟩]

/-! Bridge lemmas between the integer-scaled executable pipeline and the
source-faithful rational/real pipeline. -/

theorem lumaQ_eq (pixels : List ℕ) (idx : ℕ) :
    lumaQ pixels idx = (luma1000 pixels idx : ℚ) / 1000 := by
  simp only [lumaQ, luma1000]
  push_cast
  ring

theorem lumaQ_gt_iff (pixels : List ℕ) (idx : ℕ) :
    (brightnessThreshold < lumaQ pixels idx) ↔ (200000 < luma1000 pixels idx) := by
  rw [lumaQ_eq, brightnessThreshold, lt_div_iff₀ (by norm_num)]
  constructor
  · intro h
    exact_mod_cast h
  · intro h
    exact_mod_cast h

theorem sobelAccumQ_eq (pixels : List ℕ) (width x y : ℕ) :
    sobelAccumQ pixels width x y =
      (((sobelAccum pixels width x y).1 : ℚ) / 1000,
       ((sobelAccum pixels width x y).2 : ℚ) / 1000) := by
  simp only [sobelAccumQ, sobelAccum, offsets, List.foldl_cons, List.foldl_nil, lumaQ_eq]
  rw [Prod.mk.injEq]
  push_cast
  constructor <;> ring

theorem sqrtScale (v : ℤ) :
    ((edgeThreshold : ℝ) < sqrtScaled v) ↔ (40000 < v) := by
  have h5 : ((edgeThreshold : ℚ) : ℝ) = 1 / 5 := by norm_num [edgeThreshold]
  unfold sqrtScaled
  rw [h5, Real.lt_sqrt (by norm_num), lt_div_iff₀ (by norm_num)]
  norm_num
  constructor
  · intro h
    exact_mod_cast h
  · intro h
    exact_mod_cast h

theorem applySobelFilter_eq_map (pixels : List ℕ) (width height : ℕ) :
    applySobelFilter pixels width height
      = (applySobelFilterSq pixels width height).map
          (List.map sqrtScaled) := by
  unfold applySobelFilter applySobelFilterSq
  rw [List.map_map]
  apply List.map_congr_left
  intro y _
  simp only [Function.comp, List.map_map]
  apply List.map_congr_left
  intro x _
  simp only [Function.comp]
  by_cases hc : 1 ≤ y ∧ y + 1 < height ∧ 1 ≤ x ∧ x + 1 < width
  · rw [if_pos hc, if_pos hc, sobelAccumQ_eq]
    congr 1
    push_cast
    ring
  · rw [if_neg hc, if_neg hc]
    simp [sqrtScaled]

theorem edgeTestR_map (edges : List (List ℤ)) (x y : ℕ) :
    edgeTestR (edges.map (List.map sqrtScaled)) x y
      = edgeTestScaled edges x y := by
  cases h : edges[x]? with
  | none => simp [edgeTestR, edgeTestScaled, List.getElem?_map, h]
  | some row =>
    cases h2 : row[y]? with
    | none => simp [edgeTestR, edgeTestScaled, List.getElem?_map, h, h2]
    | some v =>
      simp only [edgeTestR, edgeTestScaled, List.getElem?_map, h, h2, Option.map_some']
      rw [decide_eq_decide.mpr (sqrtScale v)]

theorem fbpGoR_eq (pixels : List ℕ) (width : ℕ) (edges : List (List ℤ)) :
    ∀ k p, fbpGoR pixels width (edges.map (List.map sqrtScaled)) k p
      = (fbpGoScaled pixels width edges k p).map (List.map BrightPointS.toPoint) := by
  intro k
  induction k with
  | zero => intro p; rfl
  | succ k ih =>
    intro p
    simp only [fbpGoR, fbpGoScaled]
    by_cases hb : 200000 < luma1000 pixels (4 * p)
    · rw [if_pos ((lumaQ_gt_iff pixels (4 * p)).mpr hb), if_pos hb, edgeTestR_map]
      cases he : edgeTestScaled edges (p % width) (p / width) with
      | none => rfl
      | some pass =>
        rw [ih]
        cases hr : fbpGoScaled pixels width edges k (p + 1) with
        | none => rfl
        | some rest =>
          cases pass with
          | false => simp
          | true => simp [BrightPointS.toPoint, lumaQ_eq]
    · rw [if_neg (fun hq => hb ((lumaQ_gt_iff pixels (4 * p)).mp hq)), if_neg hb, ih]

theorem findBrightPoints_eq (pixels : List ℕ) (width height : ℕ) :
    findBrightPoints pixels width height
      = (findBrightPointsScaled pixels width height).map (List.map BrightPointS.toPoint) := by
  unfold findBrightPoints findBrightPointsScaled
  rw [applySobelFilter_eq_map, fbpGoR_eq]

/-! Lemmas about the ranking sort (source line 109) and the particle
buffer write loop (lines 114-121). -/

theorem mem_insertDesc {p b : BrightPoint} {l : List BrightPoint} :
    b ∈ insertDesc p l ↔ b = p ∨ b ∈ l := by
  induction l with
  | nil => simp [insertDesc]
  | cons q rest ih =>
    simp only [insertDesc]
    by_cases h : q.brightness ≤ p.brightness
    · rw [if_pos h]
      exact List.mem_cons
    · rw [if_neg h]
      simp only [List.mem_cons, ih]
      tauto

theorem insertDesc_perm (p : BrightPoint) (l : List BrightPoint) :
    (insertDesc p l).Perm (p :: l) := by
  induction l with
  | nil => exact List.Perm.refl _
  | cons q rest ih =>
    simp only [insertDesc]
    by_cases h : q.brightness ≤ p.brightness
    · rw [if_pos h]
    · rw [if_neg h]
      exact (ih.cons q).trans (List.Perm.swap p q rest)

theorem sortDesc_perm (l : List BrightPoint) : (sortDesc l).Perm l := by
  induction l with
  | nil => exact List.Perm.refl _
  | cons p rest ih =>
    exact (insertDesc_perm p (sortDesc rest)).trans (ih.cons p)

theorem sorted_insertDesc {p : BrightPoint} {l : List BrightPoint}
    (h : l.Sorted descBr) : (insertDesc p l).Sorted descBr := by
  induction l with
  | nil => simp [insertDesc, List.Sorted]
  | cons q rest ih =>
    simp only [insertDesc]
    by_cases hq : q.brightness ≤ p.brightness
    · rw [if_pos hq]
      refine List.pairwise_cons.mpr ⟨?_, h⟩
      intro b hb
      rcases List.mem_cons.mp hb with hb | hb
      · subst hb
        exact hq
      · exact le_trans (List.rel_of_sorted_cons h b hb) hq
    · rw [if_neg hq]
      refine List.pairwise_cons.mpr ⟨?_, ih h.of_cons⟩
      intro b hb
      rcases mem_insertDesc.mp hb with hb | hb
      · subst hb
        exact le_of_lt (lt_of_not_le hq)
      · exact List.rel_of_sorted_cons h b hb

theorem sortDesc_sorted (l : List BrightPoint) : (sortDesc l).Sorted descBr := by
  induction l with
  | nil => simp [sortDesc]
  | cons p rest ih => exact sorted_insertDesc ih

theorem rankPoints_eq (pts : List BrightPoint) :
    rankPoints pts = (sortDesc pts).take maxBrightPoints := by
  unfold rankPoints
  by_cases h : maxBrightPoints < (sortDesc pts).length
  · rw [if_pos h]
  · rw [if_neg h, List.take_of_length_le (le_of_not_lt h)]

theorem writeLoop_length (width height : ℕ) :
    ∀ (pts : List BrightPoint) (i : ℕ) (buf : List Vec3),
      (writeLoop width height pts i buf).length = buf.length := by
  intro pts
  induction pts with
  | nil => intro i buf; rfl
  | cons p rest ih =>
    intro i buf
    rw [writeLoop, ih, List.length_set]

theorem writeLoop_getElem?_lt (width height : ℕ) :
    ∀ (pts : List BrightPoint) (i j : ℕ) (buf : List Vec3), j < i →
      (writeLoop width height pts i buf)[j]? = buf[j]? := by
  intro pts
  induction pts with
  | nil => intro i j buf _; rfl
  | cons p rest ih =>
    intro i j buf hj
    rw [writeLoop, ih (i + 1) j _ (Nat.lt_succ_of_lt hj), List.getElem?_set,
      if_neg (Nat.ne_of_gt hj)]

theorem writeLoop_getElem?_ge (width height : ℕ) :
    ∀ (pts : List BrightPoint) (i j : ℕ) (buf : List Vec3), i + pts.length ≤ j →
      (writeLoop width height pts i buf)[j]? = buf[j]? := by
  intro pts
  induction pts with
  | nil => intro i j buf _; rfl
  | cons p rest ih =>
    intro i j buf hj
    rw [List.length_cons] at hj
    rw [writeLoop, ih (i + 1) j _ (by omega), List.getElem?_set,
      if_neg (by omega : ¬ i = j)]

theorem writeLoop_getElem?_eq (width height : ℕ) :
    ∀ (pts : List BrightPoint) (i j : ℕ) (buf : List Vec3),
      i ≤ j → j < i + pts.length → j < buf.length →
      (writeLoop width height pts i buf)[j]? =
        some (projPoint (pts.getD (j - i) ptDefault) width height) := by
  intro pts
  induction pts with
  | nil =>
    intro i j buf hij hj _
    rw [List.length_nil] at hj
    omega
  | cons p rest ih =>
    intro i j buf hij hj hbuf
    rw [writeLoop]
    rcases Nat.eq_or_lt_of_le hij with hji | hji
    · subst hji
      rw [writeLoop_getElem?_lt width height rest (i + 1) i _ (Nat.lt_succ_self i),
        List.getElem?_set, if_pos rfl, if_pos hbuf, Nat.sub_self, List.getD_cons_zero]
    · have hlen : j < (buf.set i (projPoint p width height)).length := by
        rw [List.length_set]
        exact hbuf
      rw [ih (i + 1) j _ hji (by rw [List.length_cons] at hj; omega) hlen]
      have hidx : j - i = (j - (i + 1)) + 1 := by omega
      rw [hidx, List.getD_cons_succ]

theorem set_getElem?_self {α : Type} {l : List α} {i : ℕ} {a : α}
    (h : l[i]? = some a) : l.set i a = l := by
  apply List.ext_getElem?
  intro n
  rw [List.getElem?_set]
  by_cases hn : i = n
  · subst hn
    have hlen : i < l.length := by
      by_contra hc
      rw [List.getElem?_eq_none (le_of_not_lt hc)] at h
      exact Option.noConfusion h
    rw [if_pos rfl, if_pos hlen, h]
  · rw [if_neg hn]

theorem writeLoop_idem (width height : ℕ) :
    ∀ (pts : List BrightPoint) (i : ℕ) (buf : List Vec3),
      writeLoop width height pts i (writeLoop width height pts i buf)
        = writeLoop width height pts i buf := by
  intro pts
  induction pts with
  | nil => intro i buf; rfl
  | cons p rest ih =>
    intro i buf
    rw [writeLoop]
    by_cases hb : i < buf.length
    · have hset : (writeLoop width height rest (i + 1)
          (buf.set i (projPoint p width height))).set i (projPoint p width height)
          = writeLoop width height rest (i + 1) (buf.set i (projPoint p width height)) := by
        apply set_getElem?_self
        rw [writeLoop_getElem?_lt width height rest (i + 1) i _ (Nat.lt_succ_self i),
          List.getElem?_set, if_pos rfl, if_pos hb]
      rw [writeLoop, hset, ih]
    · have hset : (writeLoop width height rest (i + 1)
          (buf.set i (projPoint p width height))).set i (projPoint p width height)
          = writeLoop width height rest (i + 1) (buf.set i (projPoint p width height)) := by
        apply List.set_eq_of_length_le
        rw [writeLoop_length, List.length_set]
        exact le_of_not_lt hb
      rw [writeLoop, hset, ih]

theorem updateParticleSystem_idem (pts : List BrightPoint) (width height : ℕ)
    (buf : List Vec3) :
    updateParticleSystem pts width height (updateParticleSystem pts width height buf)
      = updateParticleSystem pts width height buf :=
  writeLoop_idem width height (rankPoints pts) 0 buf

/-! Lemmas about edge map entries. -/

theorem applySobelFilter_entry (pixels : List ℕ) (width height x y : ℕ)
    (hy : y < height) (hx : x < width) :
    edgeAtR (applySobelFilter pixels width height) x y =
      if 1 ≤ y ∧ y + 1 < height ∧ 1 ≤ x ∧ x + 1 < width then
        Real.sqrt (((sobelAccumQ pixels width x y).1 : ℝ) * ((sobelAccumQ pixels width x y).1 : ℝ)
          + ((sobelAccumQ pixels width x y).2 : ℝ) * ((sobelAccumQ pixels width x y).2 : ℝ))
      else 0 := by
  unfold edgeAtR
  rw [List.getD_eq_getElem?_getD (applySobelFilter pixels width height) y []]
  have h1 : (applySobelFilter pixels width height)[y]? =
      some ((List.range width).map fun x =>
        if 1 ≤ y ∧ y + 1 < height ∧ 1 ≤ x ∧ x + 1 < width then
          Real.sqrt (((sobelAccumQ pixels width x y).1 : ℝ) * ((sobelAccumQ pixels width x y).1 : ℝ)
            + ((sobelAccumQ pixels width x y).2 : ℝ) * ((sobelAccumQ pixels width x y).2 : ℝ))
        else 0) := by
    unfold applySobelFilter
    rw [List.getElem?_map, List.getElem?_range hy, Option.map_some']
  rw [h1, Option.getD_some, List.getD_eq_getElem?_getD, List.getElem?_map,
    List.getElem?_range hx, Option.map_some', Option.getD_some]

theorem edgeAtR_map (L : List (List ℤ)) (x y : ℕ) :
    edgeAtR (L.map (List.map sqrtScaled)) x y = sqrtScaled (edgeAtS L x y) := by
  unfold edgeAtR edgeAtS
  rw [List.getD_eq_getElem?_getD (L.map (List.map sqrtScaled)) y [],
    List.getD_eq_getElem?_getD L y [], List.getElem?_map]
  cases h : L[y]? with
  | none => simp [sqrtScaled]
  | some row =>
    rw [Option.map_some', Option.getD_some, Option.getD_some,
      List.getD_eq_getElem?_getD (row.map sqrtScaled) x 0,
      List.getD_eq_getElem?_getD row x 0, List.getElem?_map]
    cases h2 : row[x]? with
    | none => simp [sqrtScaled]
    | some v => rw [Option.map_some', Option.getD_some, Option.getD_some]

theorem kx00 : kAt gxK 0 0 = -1 := by decide
theorem kx01 : kAt gxK 0 1 = 0 := by decide
theorem kx02 : kAt gxK 0 2 = 1 := by decide
theorem kx10 : kAt gxK 1 0 = -2 := by decide
theorem kx11 : kAt gxK 1 1 = 0 := by decide
theorem kx12 : kAt gxK 1 2 = 2 := by decide
theorem kx20 : kAt gxK 2 0 = -1 := by decide
theorem kx21 : kAt gxK 2 1 = 0 := by decide
theorem kx22 : kAt gxK 2 2 = 1 := by decide
theorem ky00 : kAt gyK 0 0 = -1 := by decide
theorem ky01 : kAt gyK 0 1 = -2 := by decide
theorem ky02 : kAt gyK 0 2 = -1 := by decide
theorem ky10 : kAt gyK 1 0 = 0 := by decide
theorem ky11 : kAt gyK 1 1 = 0 := by decide
theorem ky12 : kAt gyK 1 2 = 0 := by decide
theorem ky20 : kAt gyK 2 0 = 1 := by decide
theorem ky21 : kAt gyK 2 1 = 2 := by decide
theorem ky22 : kAt gyK 2 2 = 1 := by decide

theorem sobelAccumQ_eq_conv (pixels : List ℕ) (width x y : ℕ) :
    sobelAccumQ pixels width x y =
      (convXSpec pixels width x y, convYSpec pixels width x y) := by
  have e0 : ∀ n : ℕ, n + 0 - 1 = n - 1 := fun n => by omega
  have e1 : ∀ n : ℕ, n + 1 - 1 = n := fun n => by omega
  have e2 : ∀ n : ℕ, n + 2 - 1 = n + 1 := fun n => by omega
  simp only [sobelAccumQ, offsets, List.foldl_cons, List.foldl_nil,
    kx00, kx01, kx02, kx10, kx11, kx12, kx20, kx21, kx22,
    ky00, ky01, ky02, ky10, ky11, ky12, ky20, ky21, ky22, e0, e1, e2,
    convXSpec, convYSpec]
  rw [Prod.mk.injEq]
  push_cast
  constructor <;> ring

/-! Scan-order lemma for the extraction loop. -/

theorem fbpGoScaled_scan_order (pixels : List ℕ) (width : ℕ) (edges : List (List ℤ)) :
    ∀ (k p : ℕ) (l : List BrightPointS), fbpGoScaled pixels width edges k p = some l →
      (∀ b ∈ l, p ≤ b.y * width + b.x)
        ∧ l.Pairwise (fun a b => a.y * width + a.x < b.y * width + b.x) := by
  intro k
  induction k with
  | zero =>
    intro p l h
    simp only [fbpGoScaled] at h
    cases h
    refine ⟨?_, List.Pairwise.nil⟩
    intro b hb
    cases hb
  | succ k ih =>
    intro p l h
    have hpi : (p / width) * width + p % width = p := by
      rw [Nat.mul_comm]
      exact Nat.div_add_mod p width
    simp only [fbpGoScaled] at h
    by_cases hb : 200000 < luma1000 pixels (4 * p)
    · rw [if_pos hb] at h
      cases he : edgeTestScaled edges (p % width) (p / width) with
      | none => rw [he] at h; exact Option.noConfusion h
      | some pass =>
        rw [he] at h
        cases hr : fbpGoScaled pixels width edges k (p + 1) with
        | none => rw [hr] at h; exact Option.noConfusion h
        | some rest =>
          rw [hr] at h
          have hrest := ih (p + 1) rest hr
          cases pass with
          | false =>
            cases h
            exact ⟨fun b hb2 => le_trans (Nat.le_succ p) (hrest.1 b hb2), hrest.2⟩
          | true =>
            cases h
            refine ⟨?_, ?_⟩
            · intro b hb2
              rcases List.mem_cons.mp hb2 with hb2 | hb2
              · subst hb2
                simp only [hpi]
                exact le_refl p
              · exact le_trans (Nat.le_succ p) (hrest.1 b hb2)
            · refine List.pairwise_cons.mpr ⟨?_, hrest.2⟩
              intro b hb2
              simp only [hpi]
              exact lt_of_lt_of_le (Nat.lt_succ_self p) (hrest.1 b hb2)
    · rw [if_neg hb] at h
      have hrest := ih (p + 1) l h
      exact ⟨fun b hb2 => le_trans (Nat.le_succ p) (hrest.1 b hb2), hrest.2⟩

/-! Theorems settling the claims. -/

/-- C4: for every frame, the EdgeMap Builder returns a map of identical
dimensions (height rows of width entries); every border pixel (row 0, last
row, column 0, last column) has value 0; and every interior pixel
(1 ≤ x < width-1, 1 ≤ y < height-1) has value sqrt(sumX² + sumY²), where
sumX and sumY are the convolutions of the 3x3 neighbourhood lumas with the
kernels gx = [[-1,0,1],[-2,0,2],[-1,0,1]] and gy = [[-1,-2,-1],[0,0,0],[1,2,1]]
(spelled out term by term in convXSpec and convYSpec). -/
theorem edge_map_dimensions_border_interior (pixels : List ℕ) (width height : ℕ) :
    (applySobelFilter pixels width height).length = height
    ∧ (∀ y, y < height → ((applySobelFilter pixels width height).getD y []).length = width)
    ∧ (∀ x y, x < width → y < height →
        (y = 0 ∨ y = height - 1 ∨ x = 0 ∨ x = width - 1) →
        edgeAtR (applySobelFilter pixels width height) x y = 0)
    ∧ (∀ x y, 1 ≤ x → x < width - 1 → 1 ≤ y → y < height - 1 →
        edgeAtR (applySobelFilter pixels width height) x y =
          Real.sqrt ((convXSpec pixels width x y : ℝ) ^ 2
            + (convYSpec pixels width x y : ℝ) ^ 2)) := by
  refine ⟨?_, ?_, ?_, ?_⟩
  · unfold applySobelFilter
    rw [List.length_map, List.length_range]
  · intro y hy
    unfold applySobelFilter
    rw [List.getD_eq_getElem?_getD, List.getElem?_map, List.getElem?_range hy,
      Option.map_some', Option.getD_some, List.length_map, List.length_range]
  · intro x y hx hy hborder
    rw [applySobelFilter_entry pixels width height x y hy hx, if_neg]
    rintro ⟨c1, c2, c3, c4⟩
    rcases hborder with h | h | h | h <;> omega
  · intro x y hx1 hx2 hy1 hy2
    have hy : y < height := by omega
    have hx : x < width := by omega
    rw [applySobelFilter_entry pixels width height x y hy hx,
      if_pos ⟨hy1, by omega, hx1, by omega⟩, sobelAccumQ_eq_conv]
    congr 1
    ring

/-- Witness for C4 on a concrete 3x3 black frame: the interior pixel (1,1)
carries the convolution magnitude and the border pixel (0,2) carries 0. -/
theorem edge_map_dimensions_border_interior_witness :
    edgeAtR (applySobelFilter blackFrame 3 3) 1 1 =
      Real.sqrt ((convXSpec blackFrame 3 1 1 : ℝ) ^ 2 + (convYSpec blackFrame 3 1 1 : ℝ) ^ 2)
    ∧ edgeAtR (applySobelFilter blackFrame 3 3) 0 2 = 0 :=
  ⟨(edge_map_dimensions_border_interior blackFrame 3 3).2.2.2 1 1 (by decide) (by decide)
      (by decide) (by decide),
   (edge_map_dimensions_border_interior blackFrame 3 3).2.2.1 0 2 (by decide) (by decide)
      (Or.inr (Or.inr (Or.inl rfl)))⟩

/-- C5: the Point Ranker/Limiter returns at most maxBrightPoints entries,
ordered descending by brightness; every returned entry's brightness is at
least every non-returned candidate's brightness; and when the candidate
list has at most maxBrightPoints entries all of them are returned. -/
theorem ranker_truncation_spec (pts : List BrightPoint) :
    (rankPoints pts).length ≤ maxBrightPoints
    ∧ (rankPoints pts).Sorted (fun a b => b.brightness ≤ a.brightness)
    ∧ ∃ rest, ((rankPoints pts) ++ rest).Perm pts
        ∧ (∀ p ∈ rankPoints pts, ∀ q ∈ rest, q.brightness ≤ p.brightness)
        ∧ (pts.length ≤ maxBrightPoints → rest = []) := by
  refine ⟨?_, ?_, ⟨(sortDesc pts).drop maxBrightPoints, ?_, ?_, ?_⟩⟩
  · rw [rankPoints_eq, List.length_take]
    exact min_le_left _ _
  · rw [rankPoints_eq]
    exact List.Pairwise.sublist (List.take_sublist _ _) (sortDesc_sorted pts)
  · rw [rankPoints_eq, List.take_append_drop]
    exact sortDesc_perm pts
  · intro p hp q hq
    rw [rankPoints_eq] at hp
    have hsplit : ((sortDesc pts).take maxBrightPoints
        ++ (sortDesc pts).drop maxBrightPoints).Pairwise descBr := by
      rw [List.take_append_drop]
      exact sortDesc_sorted pts
    exact (List.pairwise_append.mp hsplit).2.2 p hp q hq
  · intro hlen
    apply List.drop_eq_nil_of_le
    rw [(sortDesc_perm pts).length_eq]
    exact hlen

/-- Witness for C5 at a concrete two-candidate list. -/
theorem ranker_truncation_spec_witness :
    (rankPoints demoPts).length ≤ maxBrightPoints
    ∧ (rankPoints demoPts).Sorted (fun a b => b.brightness ≤ a.brightness)
    ∧ ∃ rest, ((rankPoints demoPts) ++ rest).Perm demoPts
        ∧ (∀ p ∈ rankPoints demoPts, ∀ q ∈ rest, q.brightness ≤ p.brightness)
        ∧ (demoPts.length ≤ maxBrightPoints → rest = []) :=
  ranker_truncation_spec demoPts

/-- C6: the Projector returns exactly (x/width*2-1, -(y/height)*2+1, 0);
the driver writes that position into the particle buffer with
projectionDistance subtracted from the z component; and for 0 ≤ x < width,
0 ≤ y < height the returned x and y components lie within [-1, 1]. -/
theorem projector_formula_and_bounds (x y width height : ℕ)
    (hw : 0 < width) (hh : 0 < height) :
    convertToWorldPosition x y width height =
      ⟨(x : ℚ) / (width : ℚ) * 2 - 1, -((y : ℚ) / (height : ℚ)) * 2 + 1, 0⟩
    ∧ (∀ (pts : List BrightPoint) (buf : List Vec3) (i : ℕ),
        i < (rankPoints pts).length → i < buf.length →
        (updateParticleSystem pts width height buf)[i]? =
          some (projPoint ((rankPoints pts).getD i ptDefault) width height))
    ∧ (x < width → y < height →
        -1 ≤ (convertToWorldPosition x y width height).x
        ∧ (convertToWorldPosition x y width height).x ≤ 1
        ∧ -1 ≤ (convertToWorldPosition x y width height).y
        ∧ (convertToWorldPosition x y width height).y ≤ 1) := by
  refine ⟨?_, ?_, ?_⟩
  · simp [convertToWorldPosition, Vec3.mk.injEq, neg_div]
  · intro pts buf i h1 h2
    unfold updateParticleSystem
    have := writeLoop_getElem?_eq width height (rankPoints pts) 0 i buf
      (Nat.zero_le i) (by omega) h2
    rw [Nat.sub_zero] at this
    exact this
  · intro hx hy
    have hwq : (0 : ℚ) < (width : ℚ) := by exact_mod_cast hw
    have hhq : (0 : ℚ) < (height : ℚ) := by exact_mod_cast hh
    have hx0 : (0 : ℚ) ≤ (x : ℚ) / (width : ℚ) :=
      div_nonneg (Nat.cast_nonneg x) (le_of_lt hwq)
    have hx1 : (x : ℚ) / (width : ℚ) < 1 :=
      (div_lt_one hwq).mpr (by exact_mod_cast hx)
    have hy0 : (0 : ℚ) ≤ (y : ℚ) / (height : ℚ) :=
      div_nonneg (Nat.cast_nonneg y) (le_of_lt hhq)
    have hy1 : (y : ℚ) / (height : ℚ) < 1 :=
      (div_lt_one hhq).mpr (by exact_mod_cast hy)
    unfold convertToWorldPosition
    refine ⟨by linarith, by linarith, ?_, ?_⟩
    · show -1 ≤ -(y : ℚ) / (height : ℚ) * 2 + 1
      rw [neg_div]
      linarith
    · show -(y : ℚ) / (height : ℚ) * 2 + 1 ≤ 1
      rw [neg_div]
      linarith

/-- Witness for C6 at pixel (2,2) of a 4x4 frame, with a concrete buffer
write at index 0. -/
theorem projector_formula_and_bounds_witness :
    (convertToWorldPosition 2 2 4 4 =
      ⟨(2 : ℚ) / (4 : ℚ) * 2 - 1, -((2 : ℚ) / (4 : ℚ)) * 2 + 1, 0⟩)
    ∧ (-1 ≤ (convertToWorldPosition 2 2 4 4).x
        ∧ (convertToWorldPosition 2 2 4 4).x ≤ 1
        ∧ -1 ≤ (convertToWorldPosition 2 2 4 4).y
        ∧ (convertToWorldPosition 2 2 4 4).y ≤ 1) :=
  ⟨(projector_formula_and_bounds 2 2 4 4 (by decide) (by decide)).1,
   (projector_formula_and_bounds 2 2 4 4 (by decide) (by decide)).2.2
     (by decide) (by decide)⟩

/-- C7: one pass overwrites exactly the first n particle-buffer entries
(n = number of ranked points): the buffer length never changes and every
entry at index ≥ n keeps its previous value; the capacity fixed by
initParticleSystem is maxBrightPoints. -/
theorem particle_buffer_frame_rule (pts : List BrightPoint) (width height : ℕ)
    (buf : List Vec3) :
    (updateParticleSystem pts width height buf).length = buf.length
    ∧ (∀ i, i < (rankPoints pts).length → i < buf.length →
        (updateParticleSystem pts width height buf)[i]? =
          some (projPoint ((rankPoints pts).getD i ptDefault) width height))
    ∧ (∀ i, (rankPoints pts).length ≤ i →
        (updateParticleSystem pts width height buf)[i]? = buf[i]?)
    ∧ initPositions.length = maxBrightPoints := by
  refine ⟨writeLoop_length width height (rankPoints pts) 0 buf, ?_, ?_,
    by simp [initPositions]⟩
  · intro i h1 h2
    have := writeLoop_getElem?_eq width height (rankPoints pts) 0 i buf
      (Nat.zero_le i) (by omega) h2
    rw [Nat.sub_zero] at this
    exact this
  · intro i hi
    exact writeLoop_getElem?_ge width height (rankPoints pts) 0 i buf (by omega)

/-- Witness for C7: a two-candidate pass over a concrete five-slot buffer
preserves the length and the entry at index 4. -/
theorem particle_buffer_frame_rule_witness :
    (updateParticleSystem demoPts 4 4 demoBuf).length = demoBuf.length
    ∧ (updateParticleSystem demoPts 4 4 demoBuf)[4]? = demoBuf[4]? :=
  ⟨(particle_buffer_frame_rule demoPts 4 4 demoBuf).1,
   (particle_buffer_frame_rule demoPts 4 4 demoBuf).2.2.1 4 (by
      rw [rankPoints_eq, List.length_take, (sortDesc_perm demoPts).length_eq]
      decide)⟩

/-- C8: running the full pass twice on the identical frame with no state
mutation in between yields the identical projected point list and leaves
the particle buffer exactly as after the first pass. -/
theorem pipeline_two_run_determinism (pixels : List ℕ) (width height : ℕ)
    (buf : List Vec3) :
    (runPassFull pixels width height buf).bind
        (fun r => runPassFull pixels width height r.2)
      = runPassFull pixels width height buf := by
  unfold runPassFull
  cases h : findBrightPoints pixels width height with
  | none => rfl
  | some pts => simp [updateParticleSystem_idem]

/-- C9: when acquisition of the capture source fails, exactly one
diagnostic is reported, exactly one acquisition attempt is ever made (no
retry), and no matter what the scheduler delivers afterwards the driver
stays in AwaitingCapture with the particle buffer untouched. -/
theorem capture_failure_idle_no_retry (inputs : List FrameInput) :
    (initWebcam false initState).diagnostics = 1
    ∧ (initWebcam false initState).acquireAttempts = 1
    ∧ runTrace inputs (initWebcam false initState) = initWebcam false initState
    ∧ (runTrace inputs (initWebcam false initState)).phase = DriverPhase.awaitingCapture
    ∧ (runTrace inputs (initWebcam false initState)).buffer = initPositions
    ∧ (runTrace inputs (initWebcam false initState)).diagnostics = 1
    ∧ (runTrace inputs (initWebcam false initState)).acquireAttempts = 1 := by
  have hfix : ∀ (ins : List FrameInput) (s : DriverState), s.scheduled = false →
      runTrace ins s = s := by
    intro ins
    induction ins with
    | nil => intro s _; rfl
    | cons inp rest ih =>
      intro s hs
      have hstep : step inp s = s := by
        unfold step
        rw [hs]
        simp
      rw [runTrace, hstep]
      exact ih s hs
  have htrace : runTrace inputs (initWebcam false initState) = initWebcam false initState :=
    hfix inputs _ rfl
  refine ⟨rfl, rfl, htrace, ?_, ?_, ?_, ?_⟩ <;> rw [htrace] <;> rfl

/-- C10: the candidate list produced by the extractor is ordered by
row-major scan position: for any two emitted points p before q in the
list, p.y * width + p.x < q.y * width + q.x. -/
theorem extractor_scan_order (pixels : List ℕ) (width height : ℕ)
    (l : List BrightPoint)
    (h : findBrightPoints pixels width height = some l) :
    l.Pairwise (fun a b => a.y * width + a.x < b.y * width + b.x) := by
  rw [findBrightPoints_eq] at h
  cases hs : findBrightPointsScaled pixels width height with
  | none =>
    rw [hs] at h
    exact Option.noConfusion h
  | some ls =>
    rw [hs, Option.map_some'] at h
    have hl : l = ls.map BrightPointS.toPoint := (Option.some.inj h).symm
    subst hl
    rw [List.pairwise_map]
    exact (fbpGoScaled_scan_order pixels width
      (applySobelFilterSq pixels width height) ((pixels.length + 3) / 4) 0 ls hs).2

/-- Witness for C10: the extractor output on fiveFrame is a concrete
two-point list in strictly increasing scan order. -/
theorem extractor_scan_order_witness :
    ∃ l, findBrightPoints fiveFrame 5 5 = some l
      ∧ l.Pairwise (fun a b => a.y * 5 + a.x < b.y * 5 + b.x) := by
  have hs : findBrightPointsScaled fiveFrame 5 5 =
      some [⟨3, 2, 255000, 255, 255, 255⟩, ⟨3, 3, 255000, 255, 255, 255⟩] := by
    decide
  have h : findBrightPoints fiveFrame 5 5 =
      some (List.map BrightPointS.toPoint
        [⟨3, 2, 255000, 255, 255, 255⟩, ⟨3, 3, 255000, 255, 255, 255⟩]) := by
    rw [findBrightPoints_eq, hs, Option.map_some']
  exact ⟨_, h, extractor_scan_order fiveFrame 5 5 _ h⟩

/-- C1: the claimed extraction rule fails on the code.  On fiveFrame, pixel
(3, 1) has luma 255 > brightnessThreshold and edge-map value 1020 >
edgeThreshold, so by the claim it must be emitted; but findBrightPoints
does not emit it, because line 100 of the source reads edges[x][y] — the
gradient of the transposed pixel (y, x), which is 0 here — instead of
gradients[y][x]. -/
theorem extractor_transposed_edge_lookup :
    brightnessThreshold < lumaQ fiveFrame ((1 * 5 + 3) * 4)
    ∧ (edgeThreshold : ℝ) < edgeAtR (applySobelFilter fiveFrame 5 5) 3 1
    ∧ ∃ l, findBrightPoints fiveFrame 5 5 = some l
        ∧ ∀ b ∈ l, ¬(b.x = 3 ∧ b.y = 1) := by
  refine ⟨?_, ?_, ?_⟩
  · rw [lumaQ_gt_iff]
    decide
  · rw [applySobelFilter_eq_map, edgeAtR_map,
      show edgeAtS (applySobelFilterSq fiveFrame 5 5) 3 1 = 1040400000000 from by decide]
    exact (sqrtScale 1040400000000).mpr (by decide)
  · have hs : findBrightPointsScaled fiveFrame 5 5 =
        some [⟨3, 2, 255000, 255, 255, 255⟩, ⟨3, 3, 255000, 255, 255, 255⟩] := by
      decide
    refine ⟨_, by rw [findBrightPoints_eq, hs, Option.map_some'], ?_⟩
    intro b hb
    rintro ⟨hx, hy⟩
    simp only [List.map_cons, List.map_nil, List.mem_cons, List.not_mem_nil,
      or_false] at hb
    rcases hb with rfl | rfl
    · exact absurd hy (by decide)
    · exact absurd hy (by decide)

/-- C2 counterexample: on the end-to-end scenario frame (4x4 mid-gray with
a white pixel at (2, 2)) the pipeline produces no BrightPoint at all — the
Sobel magnitude at (2, 2) itself is 0 because the kernels have zero centre
weight and the eight neighbours are all the same gray — so it does not
produce exactly one point at (2, 2). -/
theorem end_to_end_scenario_counterexample :
    findBrightPoints grayWhiteFrame 4 4 = some []
    ∧ ¬ ∃ p : BrightPoint, findBrightPoints grayWhiteFrame 4 4 = some [p] := by
  have h : findBrightPoints grayWhiteFrame 4 4 = some [] := by
    rw [findBrightPoints_eq,
      show findBrightPointsScaled grayWhiteFrame 4 4 = some [] from by decide,
      Option.map_some']
    rfl
  refine ⟨h, ?_⟩
  rintro ⟨p, hp⟩
  rw [h] at hp
  exact List.noConfusion (Option.some.inj hp)

/-- C2 amended: on the end-to-end scenario frame the pipeline produces
exactly zero BrightPoints (the edge-map value at (2, 2) is 0, not above
edgeThreshold), and projecting pixel (2, 2) with width = height = 4 would
indeed give normalized coordinates x = 0 and y = 0. -/
theorem end_to_end_scenario_amended :
    findBrightPoints grayWhiteFrame 4 4 = some []
    ∧ edgeAtR (applySobelFilter grayWhiteFrame 4 4) 2 2 = 0
    ∧ convertToWorldPosition 2 2 4 4 = ⟨0, 0, 0⟩ := by
  refine ⟨?_, ?_, ?_⟩
  · rw [findBrightPoints_eq,
      show findBrightPointsScaled grayWhiteFrame 4 4 = some [] from by decide,
      Option.map_some']
    rfl
  · rw [applySobelFilter_eq_map, edgeAtR_map,
      show edgeAtS (applySobelFilterSq grayWhiteFrame 4 4) 2 2 = 0 from by decide]
    simp [sqrtScaled]
  · simp only [convertToWorldPosition, Vec3.mk.injEq]
    norm_num

/-- C3: the claimed in-bounds safety fails on the code.  crashFrame is a
valid frame (width 2, height 1, buffer length 2*1*4 = 8), yet extraction
fails: its second pixel is bright, so line 100 evaluates edges[1][0] on an
edge map with a single row — the row read is out of bounds (a JS
TypeError), the modelled failure branch. -/
theorem extractor_bounds_failure :
    crashFrame.length = 2 * 1 * 4
    ∧ 0 < 2 ∧ 0 < 1
    ∧ findBrightPoints crashFrame 2 1 = none := by
  refine ⟨by decide, by decide, by decide, ?_⟩
  rw [findBrightPoints_eq,
    show findBrightPointsScaled crashFrame 2 1 = none from by decide]
  rfl

end ReflectionDetector
